import Mathlib

/-!
Verification of the passport scope grouping and summarization core
(`Telegram/SourceFiles/passport/passport_form_view_controller.cpp`).

The embedding models:
* the category maps `ScopeTypeForValueType` / `FieldsTypeForScopeType`;
* the scope builder `ComputeScopes` (a left fold over the request list,
  with the `std::map` keyed by scope type modelled as a function
  `ScopeType → Option Scope` read off in scope-category order);
* the summary formatter `ComputeScopeRowReadyString` (fatal
  `Unexpected` paths are modelled as `none`, the "incomplete" state as
  `some ""`);
* the row presenter `ComputeScopeRow`.

External collaborators (field-scheme tables, contact scheme, the
localized-string provider) are passed in through an `Env` record, as the
spec describes their interfaces.
-/

namespace Passport

/-- Document/value categories (`Value::Type` in the source). -/
inductive ValueType where
  | PersonalDetails
  | Passport
  | DriverLicense
  | IdentityCard
  | Address
  | UtilityBill
  | BankStatement
  | RentalAgreement
  | Phone
  | Email
deriving DecidableEq

/-- Scope categories (`Scope::Type` in the source). -/
inductive ScopeType where
  | Identity
  | Address
  | Phone
  | Email
deriving DecidableEq

/-- One submitted value: its category, parsed fields
(`data.parsed.fields`, a key-to-string map modelled as an association
list), attached scans and optional selfie (only presence/emptiness of
scans and selfie is inspected by this core; files are opaque strings). -/
structure Value where
  type : ValueType
  fields : List (String × String)
  scans : List String
  selfie : Option String
deriving DecidableEq

/-- A grouped requirement unit: scope category, the primary value
(`fields` in the source), the secondary document values, and the
selfie-required flag. The C++ constructor sets `type` and `fields`;
`documents` starts empty and `selfieRequired` is assigned by the
builder. -/
structure Scope where
  type : ScopeType
  fields : Value
  documents : List Value
  selfieRequired : Bool
deriving DecidableEq

/-- `ScopeTypesMap` / `ScopeTypeForValueType`: the static total map from
value category to scope category (the C++ asserts the lookup always
succeeds; the map covers all ten categories, so the Lean function is
total). -/
def ScopeTypeForValueType : ValueType → ScopeType
  | .PersonalDetails => .Identity
  | .Passport => .Identity
  | .DriverLicense => .Identity
  | .IdentityCard => .Identity
  | .Address => .Address
  | .UtilityBill => .Address
  | .BankStatement => .Address
  | .RentalAgreement => .Address
  | .Phone => .Phone
  | .Email => .Email

/-- `ScopeFieldsMap` / `FieldsTypeForScopeType`: the scope category's
anchoring primary-fields value category. -/
def FieldsTypeForScopeType : ScopeType → ValueType
  | .Identity => .PersonalDetails
  | .Address => .Address
  | .Phone => .Phone
  | .Email => .Email

/-- Localized-string keys referenced by the core (`lng_passport_…`). -/
inductive LangKey where
  | lng_passport_identity_passport
  | lng_passport_identity_passport_upload
  | lng_passport_identity_license
  | lng_passport_identity_license_upload
  | lng_passport_identity_card
  | lng_passport_identity_card_upload
  | lng_passport_identity_title
  | lng_passport_identity_description
  | lng_passport_personal_details
  | lng_passport_personal_details_enter
  | lng_passport_address
  | lng_passport_address_enter
  | lng_passport_address_statement
  | lng_passport_address_statement_upload
  | lng_passport_address_bill
  | lng_passport_address_bill_upload
  | lng_passport_address_agreement
  | lng_passport_address_agreement_upload
  | lng_passport_address_title
  | lng_passport_address_description
  | lng_passport_phone_title
  | lng_passport_phone_description
  | lng_passport_email_title
  | lng_passport_email_description
deriving DecidableEq

/-- Which data a scheme row reads. Modelled from the spec: the source
tests `row.valueClass == EditDocumentScheme::ValueClass::Fields` and
treats every other class as reading the representative document's
fields; the scheme type itself lives outside this file's sources. -/
inductive ValueClass where
  | Fields
  | Scans
deriving DecidableEq

/-- Modelled from the spec: one row of the external field-scheme table
(`EditDocumentScheme`, defined outside the given sources): a field key,
the data source selector, an optional validator and an optional
formatter. -/
structure SchemeRow where
  key : String
  valueClass : ValueClass
  validate : Option (String → Bool)
  format : Option (String → String)

/-- Modelled from the spec: the external per-scope-category field-scheme
table, an ordered list of rows. -/
structure DocumentScheme where
  rows : List SchemeRow

/-- Modelled from the spec: the external collaborators consumed by the
formatter and presenter — `GetDocumentScheme`, the contact scheme's
`format`, and the localized-string provider `lang`. -/
structure Env where
  getDocumentScheme : ScopeType → DocumentScheme
  getContactSchemeFormat : ScopeType → Option (String → String)
  lang : LangKey → String

/-- `format ? format(v) : v` — the row's optional formatter, identity
when absent. -/
def applyFormat (f : Option (String → String)) (v : String) : String :=
  match f with
  | some g => g v
  | none => v

/-- `row.validate && !row.validate(v)` triggers the empty return; so a
value passes when the validator is absent or accepts it. -/
def rowValidateOk (row : SchemeRow) (v : String) : Bool :=
  match row.validate with
  | some p => p v
  | none => true

/-- The representative document: the first entry of `documents` with at
least one scan attached (the lambda at the top of the Identity/Address
branch of `ComputeScopeRowReadyString`). -/
def representativeDocument (docs : List Value) : Option Value :=
  docs.find? (fun d => !d.scans.isEmpty)

/-- The tail of a separator join: every remaining element preceded by
the separator. -/
def joinTail (sep : String) : List String → String
  | [] => ""
  | a :: rest => sep ++ a ++ joinTail sep rest

/-- `QStringList::join(sep)`. -/
def joinList (sep : String) : List String → String
  | [] => ""
  | a :: rest => a ++ joinTail sep rest

/-- The label pushed when a representative document exists and the scope
holds more than one document; `none` models the fatal
`Unexpected("Files type in ComputeScopeRowReadyString.")`. -/
def documentLabelKey : ValueType → Option LangKey
  | .Passport => some .lng_passport_identity_passport
  | .DriverLicense => some .lng_passport_identity_license
  | .IdentityCard => some .lng_passport_identity_card
  | .BankStatement => some .lng_passport_address_statement
  | .UtilityBill => some .lng_passport_address_bill
  | .RentalAgreement => some .lng_passport_address_agreement
  | _ => none

/-- The leading label list: `[lang key]` when a representative exists and
`documents.size() > 1`, else empty; `none` is the fatal path. -/
def docLabelPart (env : Env) (scope : Scope) : Option (List String) :=
  match representativeDocument scope.documents with
  | some doc =>
    if 1 < scope.documents.length then
      match documentLabelKey doc.type with
      | some key => some [env.lang key]
      | none => none
    else some []
  | none => some []

/-- The early-return test after the label: a representative exists and
either has no scans or a required selfie is missing
(`document && (document->scans.empty() || (scope.selfieRequired && !document->selfie))`). -/
def scanSelfieBlock (scope : Scope) : Bool :=
  match representativeDocument scope.documents with
  | some doc => doc.scans.isEmpty || (scope.selfieRequired && doc.selfie.isNone)
  | none => false

/-- One scheme row's contribution: `none` means the whole summary is
incomplete (missing key, rejected value, or a document row with no
representative). A `Fields` row reads the primary value's fields and
applies the formatter; a document row reads the representative's fields
and pushes the value verbatim (the source's line
`list.push_back(i->second);`). -/
def stepRow (fields : List (String × String)) (document : Option Value)
    (row : SchemeRow) : Option String :=
  match row.valueClass with
  | .Fields =>
    match List.lookup row.key fields with
    | none => none
    | some v =>
      if rowValidateOk row v then some (applyFormat row.format v) else none
  | .Scans =>
    match document with
    | none => none
    | some doc =>
      match List.lookup row.key doc.fields with
      | none => none
      | some v => if rowValidateOk row v then some v else none

/-- The loop over `scheme.rows`: collects each row's string, `none` as
soon as one row makes the summary incomplete. -/
def walkRows (fields : List (String × String)) (document : Option Value) :
    List SchemeRow → Option (List String)
  | [] => some []
  | row :: rest =>
    match stepRow fields document row with
    | none => none
    | some s =>
      match walkRows fields document rest with
      | none => none
      | some l => some (s :: l)

/-- `ComputeScopeRowReadyString`: the summary formatter. `some ""` is the
"incomplete" state; `none` models the fatal `Unexpected` paths (an
unlabelable representative category). The trailing
`Unexpected("Scope type …")` is unreachable: all four scope categories
are handled. -/
def ComputeScopeRowReadyString (env : Env) (scope : Scope) : Option String :=
  match scope.type with
  | .Identity | .Address =>
    match docLabelPart env scope with
    | none => none
    | some labelList =>
      if scanSelfieBlock scope then some ""
      else
        match walkRows scope.fields.fields
            (representativeDocument scope.documents)
            (env.getDocumentScheme scope.type).rows with
        | none => some ""
        | some strs => some (joinList ", " (labelList ++ strs))
  | .Phone | .Email =>
    match List.lookup "value" scope.fields.fields with
    | some v => some (applyFormat (env.getContactSchemeFormat scope.type) v)
    | none => some ""

/-- The derived presentation record. Modelled from the spec for the
field names (`title`, `subtitle`, `readySummary`); the C++ `ScopeRow`
struct is declared in a header outside the given sources, and the source
constructs it from three strings in this order. -/
structure ScopeRow where
  title : String
  subtitle : String
  readySummary : String
deriving DecidableEq

/-- The Identity single-document title/subtitle table of
`ComputeScopeRow` (`none` models the fatal
`Unexpected("Identity type in ComputeScopeRow.")`). -/
def identityDocKeys : ValueType → Option (LangKey × LangKey)
  | .Passport =>
    some (.lng_passport_identity_passport, .lng_passport_identity_passport_upload)
  | .IdentityCard =>
    some (.lng_passport_identity_card, .lng_passport_identity_card_upload)
  | .DriverLicense =>
    some (.lng_passport_identity_license, .lng_passport_identity_license_upload)
  | _ => none

/-- The Address single-document title/subtitle table of
`ComputeScopeRow`. -/
def addressDocKeys : ValueType → Option (LangKey × LangKey)
  | .BankStatement =>
    some (.lng_passport_address_statement, .lng_passport_address_statement_upload)
  | .UtilityBill =>
    some (.lng_passport_address_bill, .lng_passport_address_bill_upload)
  | .RentalAgreement =>
    some (.lng_passport_address_agreement, .lng_passport_address_agreement_upload)
  | _ => none

/-- `ComputeScopeRow`: the row presenter. Each branch attaches the
summary formatter's output as the third component; `none` models the
fatal `Unexpected` on a single document of a category foreign to the
scope. -/
def ComputeScopeRow (env : Env) (scope : Scope) : Option ScopeRow :=
  match scope.type with
  | .Identity =>
    match scope.documents with
    | [] =>
      (ComputeScopeRowReadyString env scope).map fun r =>
        ⟨env.lang .lng_passport_personal_details,
          env.lang .lng_passport_personal_details_enter, r⟩
    | [doc] =>
      match identityDocKeys doc.type with
      | some (tk, sk) =>
        (ComputeScopeRowReadyString env scope).map fun r =>
          ⟨env.lang tk, env.lang sk, r⟩
      | none => none
    | _ =>
      (ComputeScopeRowReadyString env scope).map fun r =>
        ⟨env.lang .lng_passport_identity_title,
          env.lang .lng_passport_identity_description, r⟩
  | .Address =>
    match scope.documents with
    | [] =>
      (ComputeScopeRowReadyString env scope).map fun r =>
        ⟨env.lang .lng_passport_address, env.lang .lng_passport_address_enter, r⟩
    | [doc] =>
      match addressDocKeys doc.type with
      | some (tk, sk) =>
        (ComputeScopeRowReadyString env scope).map fun r =>
          ⟨env.lang tk, env.lang sk, r⟩
      | none => none
    | _ =>
      (ComputeScopeRowReadyString env scope).map fun r =>
        ⟨env.lang .lng_passport_address_title,
          env.lang .lng_passport_address_description, r⟩
  | .Phone =>
    (ComputeScopeRowReadyString env scope).map fun r =>
      ⟨env.lang .lng_passport_phone_title,
        env.lang .lng_passport_phone_description, r⟩
  | .Email =>
    (ComputeScopeRowReadyString env scope).map fun r =>
      ⟨env.lang .lng_passport_email_title,
        env.lang .lng_passport_email_description, r⟩

/-- The form data consumed by the scope builder: the ordered request
list, the resolver from value category to Value (the C++ asserts the
map lookup succeeds; a total function models that contract), and the
global selfie flag. -/
structure Form where
  request : List ValueType
  values : ValueType → Value
  identitySelfieRequired : Bool

/-- Point update of the scope-type-keyed map. -/
def updState (st : ScopeType → Option Scope) (c : ScopeType) (s : Scope) :
    ScopeType → Option Scope :=
  fun x => if x = c then some s else st x

/-- The scope the loop body starts from: the scope already stored for
the requested category's scope type, or (`emplace`) a fresh one anchored
at the resolved primary value. -/
def baseScope (form : Form) (st : ScopeType → Option Scope) (t : ValueType) :
    Scope :=
  match st (ScopeTypeForValueType t) with
  | some s => s
  | none =>
    Scope.mk (ScopeTypeForValueType t)
      (form.values (FieldsTypeForScopeType (ScopeTypeForValueType t))) [] false

/-- The loop body's effect on the `documents` sequence: a category
already present is a duplicate and is skipped (first occurrence wins),
the primary category is never added, and any other category appends the
resolved value. -/
def stepDocs (form : Form) (docs : List Value) (t fieldsType : ValueType) :
    List Value :=
  if docs.any (fun d => decide (d.type = t)) then docs
  else if t = fieldsType then docs
  else docs ++ [form.values t]

/-- One loop iteration of `ComputeScopes`, producing the updated scope
stored for the requested category's scope type: `emplace` a fresh scope
anchored at the primary value when absent, re-assign `selfieRequired`,
then either skip a duplicate document category, skip the primary
category, or append the resolved document value. -/
def stepScope (form : Form) (st : ScopeType → Option Scope) (t : ValueType) :
    Scope :=
  Scope.mk
    (baseScope form st t).type
    (baseScope form st t).fields
    (stepDocs form (baseScope form st t).documents t
      (FieldsTypeForScopeType (ScopeTypeForValueType t)))
    (decide (ScopeTypeForValueType t = ScopeType.Identity)
      && form.identitySelfieRequired)

/-- One loop iteration of `ComputeScopes` as a state update. -/
def scopeStep (form : Form) (st : ScopeType → Option Scope) (t : ValueType) :
    ScopeType → Option Scope :=
  updState st (ScopeTypeForValueType t) (stepScope form st t)

/-- The initially empty `std::map<Scope::Type, Scope>`. -/
def emptyScopesState : ScopeType → Option Scope := fun _ => none

/-- Modelled from the spec: the iteration order of the
`std::map<Scope::Type, Scope>` keys — the `Scope::Type` enum is declared
in a header outside the given sources, and the spec fixes the order
Identity, Address, Phone, Email. -/
def scopeOrder : List ScopeType :=
  [.Identity, .Address, .Phone, .Email]

/-- `ComputeScopes`: fold the request list through the per-category
loop, then read the map off in scope-category order. -/
def ComputeScopes (form : Form) : List Scope :=
  List.filterMap (form.request.foldl (scopeStep form) emptyScopesState) scopeOrder

/-- Builder state invariant: every stored scope carries its own key as
its category. -/
def TyInv (st : ScopeType → Option Scope) : Prop :=
  ∀ c s, st c = some s → s.type = c

/-- Builder state invariant on documents: categories are pairwise
distinct, and every document is the resolver's value for its own
category, belongs to the stored scope's category, and is not the
primary category. -/
def DocInv (form : Form) (st : ScopeType → Option Scope) : Prop :=
  ∀ c s, st c = some s →
    (s.documents.map Value.type).Nodup ∧
    ∀ d ∈ s.documents, d = form.values d.type ∧
      ScopeTypeForValueType d.type = c ∧ d.type ≠ FieldsTypeForScopeType c

/-- A localized-string provider fixture for concrete evaluations. -/
def langEN : LangKey → String
  | .lng_passport_address_bill => "Utility Bill"
  | .lng_passport_identity_passport => "Passport"
  | _ => ""

/-- An environment with empty scheme tables and no contact formatter. -/
def envPlain : Env :=
  ⟨fun _ => ⟨[]⟩, fun _ => none, langEN⟩

/-- Fixture: a personal-details primary value. -/
def personalDetailsValue : Value :=
  ⟨.PersonalDetails, [("first_name", "John")], [], none⟩

/-- Fixture: a passport document with one scan and no selfie. -/
def passportValue : Value :=
  ⟨.Passport, [("document_no", "AB123")], ["scan0"], none⟩

/-- Fixture: an address primary value. -/
def addressValue : Value :=
  ⟨.Address, [("city", "Rome")], [], none⟩

/-- Fixture: a utility-bill document with one scan. -/
def billValue : Value :=
  ⟨.UtilityBill, [("k", "raw")], ["scan1"], none⟩

/-- Fixture: a rental-agreement document without scans. -/
def rentalValue : Value :=
  ⟨.RentalAgreement, [], [], none⟩

/-- Fixture: a phone value carrying the spec's example number. -/
def phoneValue : Value :=
  ⟨.Phone, [("value", "+1 555 0100")], [], none⟩

/-- Fixture: a resolver assigning each category a value of that
category. -/
def resolverW : ValueType → Value
  | .PersonalDetails => personalDetailsValue
  | .Passport => passportValue
  | .DriverLicense => ⟨.DriverLicense, [], [], none⟩
  | .IdentityCard => ⟨.IdentityCard, [], [], none⟩
  | .Address => addressValue
  | .UtilityBill => billValue
  | .BankStatement => ⟨.BankStatement, [], [], none⟩
  | .RentalAgreement => rentalValue
  | .Phone => phoneValue
  | .Email => ⟨.Email, [("value", "me@example.com")], [], none⟩

/-- Fixture: a request repeating the non-primary category Passport. -/
def formC2 : Form :=
  ⟨[.PersonalDetails, .Passport, .Passport], resolverW, false⟩

/-- Fixture: the spec's example request `[PersonalDetails, Passport]`. -/
def formC9 : Form :=
  ⟨[.PersonalDetails, .Passport], resolverW, false⟩

/-- Fixture: the Identity scope the builder produces from `formC9`. -/
def scopeC9 : Scope :=
  ⟨.Identity, personalDetailsValue, [passportValue], false⟩

/-- Fixture: a Phone scope around `phoneValue`. -/
def phoneScopeW : Scope :=
  ⟨.Phone, phoneValue, [], false⟩

/-- Fixture: an Identity scope with no documents. -/
def identityScopeC5 : Scope :=
  ⟨.Identity, personalDetailsValue, [], false⟩

/-- Fixture: an Identity scope requiring a selfie whose only document
has scans but no selfie. -/
def identityScopeC6 : Scope :=
  ⟨.Identity, personalDetailsValue, [passportValue], true⟩

/-- Fixture: the spec's example Address scope — a utility bill with
scans followed by a rental agreement without. -/
def addressScopeC8 : Scope :=
  ⟨.Address, addressValue, [billValue, rentalValue], false⟩

/-- Fixture: a document-sourced scheme row carrying a formatter that
rewrites every value. -/
def formatRow : SchemeRow :=
  ⟨"k", .Scans, none, some fun _ => "FORMATTED"⟩

/-- Fixture: a primary-fields scheme row carrying a formatter appending
an exclamation mark. -/
def fieldsRowW : SchemeRow :=
  ⟨"a", .Fields, none, some fun s => s ++ "!"⟩

/-- Fixture: an environment whose document scheme is the single
formatter-carrying document row. -/
def envC1 : Env :=
  ⟨fun _ => ⟨[formatRow]⟩, fun _ => none, langEN⟩

/-- Fixture: an Address scope whose single document is the utility
bill. -/
def addressScopeC1 : Scope :=
  ⟨.Address, addressValue, [billValue], false⟩

/-- Claim C4: round-trip of the category maps — for each of the four
scope categories, the scope category of its primary-fields value
category is itself. -/
theorem scope_fields_roundtrip :
    ∀ c : ScopeType, ScopeTypeForValueType (FieldsTypeForScopeType c) = c := by
  intro c
  cases c <;> rfl

/-- `find?` returning `some a` finds the first satisfying element: the
list splits around `a`, and everything before it fails the predicate. -/
theorem find_eq_some_split {α : Type} (p : α → Bool) :
    ∀ (l : List α) (a : α), l.find? p = some a →
      p a = true ∧ ∃ pre post, l = pre ++ a :: post ∧ ∀ x ∈ pre, p x = false := by
  intro l
  induction l with
  | nil => intro a h; simp [List.find?] at h
  | cons b t ih =>
    intro a h
    cases hb : p b with
    | true =>
      rw [List.find?_cons_of_pos _ hb] at h
      cases h
      exact ⟨hb, [], t, rfl, by simp⟩
    | false =>
      rw [List.find?_cons_of_neg _ (by simp [hb])] at h
      obtain ⟨hpa, pre, post, hsplit, hpre⟩ := ih a h
      refine ⟨hpa, b :: pre, post, by rw [hsplit]; rfl, ?_⟩
      intro x hx
      rcases List.mem_cons.mp hx with hx | hx
      · rw [hx]; exact hb
      · exact hpre x hx

/-- Obtaining a `ScopeRow` through `Option.map` of the ready string
pins its `readySummary` to that ready string. -/
theorem map_row_ready (env : Env) (scope : Scope) (f : String → ScopeRow)
    (row : ScopeRow) (hf : ∀ r, (f r).readySummary = r)
    (h : (ComputeScopeRowReadyString env scope).map f = some row) :
    ComputeScopeRowReadyString env scope = some row.readySummary := by
  cases hready : ComputeScopeRowReadyString env scope with
  | none => rw [hready] at h; cases h
  | some r =>
    rw [hready] at h
    simp only [Option.map_some', Option.some.injEq] at h
    rw [← h, hf]

/-- Claim C5: the row presenter's `readySummary` is exactly the summary
formatter's output on the same scope. -/
theorem scopeRow_summary_from_formatter (env : Env) (scope : Scope)
    (row : ScopeRow) (h : ComputeScopeRow env scope = some row) :
    ComputeScopeRowReadyString env scope = some row.readySummary := by
  obtain ⟨ty, pv, docs, sr⟩ := scope
  cases ty <;> rcases docs with _ | ⟨d, _ | ⟨d2, rest⟩⟩ <;>
    simp only [ComputeScopeRow] at h <;> try split at h
  all_goals
    first
      | exact map_row_ready _ _ _ row (fun r => rfl) h
      | exact Option.noConfusion h

/-- Claim C5 witness: on a concrete document-free Identity scope the
presenter's summary component agrees with the formatter. -/
theorem scopeRow_summary_from_formatter_witness :
    ComputeScopeRowReadyString envPlain identityScopeC5 = some "" :=
  scopeRow_summary_from_formatter envPlain identityScopeC5 ⟨"", "", ""⟩ (by decide)

/-- Evaluation of the summary formatter on the document-backed
(Identity/Address) branch, phrased through the named pieces. -/
theorem ready_eval_document (env : Env) (scope : Scope)
    (h : scope.type = ScopeType.Identity ∨ scope.type = ScopeType.Address) :
    ComputeScopeRowReadyString env scope =
      match docLabelPart env scope with
      | none => none
      | some labelList =>
        if scanSelfieBlock scope then some ""
        else
          match walkRows scope.fields.fields
              (representativeDocument scope.documents)
              (env.getDocumentScheme scope.type).rows with
          | none => some ""
          | some strs => some (joinList ", " (labelList ++ strs)) := by
  obtain ⟨ty, pv, docs, sr⟩ := scope
  rcases h with h | h <;> cases h <;> rfl

/-- Claim C6: an Identity scope requiring a selfie whose representative
document lacks one yields the empty summary (no fatal path), whatever
the fields contain; the label-key premise covers the well-formedness
the builder guarantees for multi-document scopes. -/
theorem selfie_missing_summary_empty (env : Env) (scope : Scope) (doc : Value)
    (htype : scope.type = ScopeType.Identity)
    (hreq : scope.selfieRequired = true)
    (hrep : representativeDocument scope.documents = some doc)
    (hselfie : doc.selfie = none)
    (hkey : 1 < scope.documents.length → (documentLabelKey doc.type).isSome = true) :
    ComputeScopeRowReadyString env scope = some "" := by
  have hblock : scanSelfieBlock scope = true := by
    simp [scanSelfieBlock, hrep, hreq, hselfie]
  rw [ready_eval_document env scope (Or.inl htype)]
  by_cases hlen : 1 < scope.documents.length
  · obtain ⟨k, hk⟩ := Option.isSome_iff_exists.mp (hkey hlen)
    have hlp : docLabelPart env scope = some [env.lang k] := by
      simp [docLabelPart, hrep, hlen, hk]
    simp [hlp, hblock]
  · have hlp : docLabelPart env scope = some [] := by
      simp [docLabelPart, hrep, hlen]
    simp [hlp, hblock]

/-- Claim C6 witness: the concrete selfie-lacking Identity scope
evaluates to the empty summary. -/
theorem selfie_missing_summary_empty_witness :
    ComputeScopeRowReadyString envPlain identityScopeC6 = some "" :=
  selfie_missing_summary_empty envPlain identityScopeC6 passportValue rfl rfl rfl
    rfl (by decide)

/-- Claim C7: for Phone/Email scopes the formatter reads the fixed
`"value"` key of the primary value: empty summary when absent, the
category formatter (identity when absent) applied to it otherwise. -/
theorem contact_summary_value_key (env : Env) (scope : Scope)
    (h : scope.type = ScopeType.Phone ∨ scope.type = ScopeType.Email) :
    (List.lookup "value" scope.fields.fields = none →
      ComputeScopeRowReadyString env scope = some "") ∧
    ∀ v, List.lookup "value" scope.fields.fields = some v →
      ComputeScopeRowReadyString env scope
        = some (applyFormat (env.getContactSchemeFormat scope.type) v) := by
  obtain ⟨ty, pv, docs, sr⟩ := scope
  rcases h with h | h <;> cases h <;>
    exact ⟨fun hl => by simp [ComputeScopeRowReadyString, hl],
      fun v hl => by simp [ComputeScopeRowReadyString, hl]⟩

/-- Claim C7 witness: the spec's example phone value is returned
verbatim. -/
theorem contact_summary_value_key_witness :
    ComputeScopeRowReadyString envPlain phoneScopeW = some "+1 555 0100" :=
  (contact_summary_value_key envPlain phoneScopeW (Or.inl rfl)).2 "+1 555 0100" rfl

/-- Claim C8: the representative document is the first entry with
scans (and absent only when no entry has scans), and a non-empty
summary of a multi-document Identity/Address scope starts with the
representative category's localized label. -/
theorem representative_and_label (env : Env) (scope : Scope) :
    (∀ doc, representativeDocument scope.documents = some doc →
      doc.scans ≠ [] ∧
        ∃ pre post, scope.documents = pre ++ doc :: post ∧
          ∀ x ∈ pre, x.scans = []) ∧
    (representativeDocument scope.documents = none →
      ∀ d ∈ scope.documents, d.scans = []) ∧
    ∀ doc s, representativeDocument scope.documents = some doc →
      (scope.type = ScopeType.Identity ∨ scope.type = ScopeType.Address) →
      1 < scope.documents.length →
      ComputeScopeRowReadyString env scope = some s → s ≠ "" →
      ∃ key rest, documentLabelKey doc.type = some key ∧
        s = env.lang key ++ rest := by
  refine ⟨?_, ?_, ?_⟩
  · intro doc hrep
    unfold representativeDocument at hrep
    obtain ⟨hp, pre, post, hsplit, hpre⟩ := find_eq_some_split _ _ _ hrep
    refine ⟨?_, pre, post, hsplit, ?_⟩
    · intro hnil
      rw [hnil] at hp
      simp at hp
    · intro x hx
      have := hpre x hx
      simpa using this
  · intro hrep d hd
    unfold representativeDocument at hrep
    have := List.find?_eq_none.mp hrep d hd
    simpa using this
  · intro doc s hrep htype hlen hready hne
    rw [ready_eval_document env scope htype] at hready
    cases hk : documentLabelKey doc.type with
    | none =>
      have hlp : docLabelPart env scope = none := by
        simp [docLabelPart, hrep, hlen, hk]
      simp [hlp] at hready
    | some key =>
      have hlp : docLabelPart env scope = some [env.lang key] := by
        simp [docLabelPart, hrep, hlen, hk]
      simp only [hlp] at hready
      by_cases hb : scanSelfieBlock scope
      · rw [if_pos hb] at hready
        exact absurd (Option.some.inj hready).symm hne
      · rw [if_neg hb] at hready
        cases hw : walkRows scope.fields.fields
            (representativeDocument scope.documents)
            (env.getDocumentScheme scope.type).rows with
        | none =>
          rw [hw] at hready
          exact absurd (Option.some.inj hready).symm hne
        | some strs =>
          rw [hw] at hready
          exact ⟨key, joinTail ", " strs, rfl, (Option.some.inj hready).symm⟩

/-- Claim C8 witness: on the spec's example Address scope the
representative is the scanned utility bill and the summary starts with
the localized "Utility Bill" label. -/
theorem representative_and_label_witness :
    (billValue.scans ≠ [] ∧
      ∃ pre post, addressScopeC8.documents = pre ++ billValue :: post ∧
        ∀ x ∈ pre, x.scans = []) ∧
    ∃ key rest, documentLabelKey billValue.type = some key ∧
      ("Utility Bill" : String) = envPlain.lang key ++ rest :=
  ⟨(representative_and_label envPlain addressScopeC8).1 billValue rfl,
    (representative_and_label envPlain addressScopeC8).2.2 billValue "Utility Bill"
      rfl (Or.inr rfl) (by decide) (by decide) (by decide)⟩

/-- Claim C10: a representative document has scans by construction, so
the early-return test can only fire for a required-but-missing
selfie. -/
theorem representative_scan_check_vacuous (scope : Scope) (doc : Value)
    (h : representativeDocument scope.documents = some doc) :
    doc.scans.isEmpty = false ∧
      scanSelfieBlock scope = (scope.selfieRequired && doc.selfie.isNone) := by
  have hp : (!doc.scans.isEmpty) = true := by
    unfold representativeDocument at h
    exact (find_eq_some_split _ _ _ h).1
  have hscans : doc.scans.isEmpty = false := by
    cases hval : doc.scans.isEmpty
    · rfl
    · rw [hval] at hp; cases hp
  refine ⟨hscans, ?_⟩
  simp [scanSelfieBlock, h, hscans]

/-- Claim C10 witness: on the concrete selfie-requiring Identity scope
the early-return test reduces to the selfie condition alone. -/
theorem representative_scan_check_vacuous_witness :
    passportValue.scans.isEmpty = false ∧
      scanSelfieBlock identityScopeC6
        = (identityScopeC6.selfieRequired && passportValue.selfie.isNone) :=
  representative_scan_check_vacuous identityScopeC6 passportValue rfl

/-- Claim C1 counterexample: with a document-sourced scheme row carrying
a formatter, the formatter is not applied — the raw field value is what
reaches the summary. -/
theorem document_row_format_counterexample :
    ComputeScopeRowReadyString envC1 addressScopeC1 = some "raw" ∧
      ("raw" : String) ≠ "FORMATTED" := by
  constructor
  · decide
  · decide

/-- Claim C1 as amended: a primary-fields row appends the looked-up
value with the row's optional formatter applied (identity if none),
while a document row appends the representative's field value verbatim,
without applying the formatter. -/
theorem stepRow_format_application (fields : List (String × String)) (doc : Value)
    (row : SchemeRow) (v : String) (hval : rowValidateOk row v = true) :
    (row.valueClass = ValueClass.Fields → List.lookup row.key fields = some v →
      stepRow fields (some doc) row = some (applyFormat row.format v)) ∧
    (row.valueClass = ValueClass.Scans → List.lookup row.key doc.fields = some v →
      stepRow fields (some doc) row = some v) := by
  constructor
  · intro hc hl
    simp [stepRow, hc, hl, hval]
  · intro hc hl
    simp [stepRow, hc, hl, hval]

/-- Claim C1 amended witness: a concrete fields row gets its formatter
applied while a concrete document row is passed through verbatim. -/
theorem stepRow_format_application_witness :
    stepRow [("a", "x")] (some billValue) fieldsRowW = some "x!" ∧
      stepRow [] (some billValue) formatRow = some "raw" :=
  ⟨(stepRow_format_application [("a", "x")] billValue fieldsRowW "x" rfl).1 rfl rfl,
    (stepRow_format_application [] billValue formatRow "raw" rfl).2 rfl rfl⟩

/-- Reading the updated slot back gives the stored scope. -/
theorem updState_self (st : ScopeType → Option Scope) (c : ScopeType) (s : Scope) :
    updState st c s c = some s := by
  simp [updState]

/-- Reading any other slot is unchanged. -/
theorem updState_ne (st : ScopeType → Option Scope) (c : ScopeType) (s : Scope)
    (x : ScopeType) (h : x ≠ c) : updState st c s x = st x := by
  simp [updState, h]

/-- A builder step stores the stepped scope at the requested category's
slot. -/
theorem scopeStep_self (form : Form) (st : ScopeType → Option Scope)
    (t : ValueType) :
    scopeStep form st t (ScopeTypeForValueType t) = some (stepScope form st t) :=
  updState_self st (ScopeTypeForValueType t) (stepScope form st t)

/-- A builder step leaves every other slot unchanged. -/
theorem scopeStep_ne (form : Form) (st : ScopeType → Option Scope)
    (t : ValueType) (x : ScopeType) (h : x ≠ ScopeTypeForValueType t) :
    scopeStep form st t x = st x :=
  updState_ne st (ScopeTypeForValueType t) (stepScope form st t) x h

/-- The base scope for a request entry carries the entry's scope
category, assuming the state invariant. -/
theorem baseScope_type (form : Form) (st : ScopeType → Option Scope)
    (t : ValueType) (hinv : TyInv st) :
    (baseScope form st t).type = ScopeTypeForValueType t := by
  unfold baseScope
  cases hst : st (ScopeTypeForValueType t) with
  | none => rfl
  | some s => exact hinv _ s hst

/-- The builder step preserves the category invariant. -/
theorem tyInv_step (form : Form) (st : ScopeType → Option Scope) (t : ValueType)
    (hinv : TyInv st) : TyInv (scopeStep form st t) := by
  intro c s h
  by_cases hc : c = ScopeTypeForValueType t
  · subst hc
    rw [scopeStep_self] at h
    cases h
    exact baseScope_type form st t hinv
  · rw [scopeStep_ne form st t c hc] at h
    exact hinv c s h

/-- The whole fold preserves the category invariant. -/
theorem tyInv_foldl (form : Form) :
    ∀ (req : List ValueType) (st : ScopeType → Option Scope), TyInv st →
      TyInv (req.foldl (scopeStep form) st) := by
  intro req
  induction req with
  | nil => intro st h; exact h
  | cons t ts ih =>
    intro st h
    rw [List.foldl_cons]
    exact ih _ (tyInv_step form st t h)

/-- The empty state satisfies the category invariant. -/
theorem tyInv_empty : TyInv emptyScopesState := by
  intro c s h
  cases h

/-- A slot of the folded state is occupied exactly when some request
entry maps to it. -/
theorem foldl_isSome (form : Form) :
    ∀ (req : List ValueType) (st : ScopeType → Option Scope) (c : ScopeType),
      ((req.foldl (scopeStep form) st) c).isSome
        = ((st c).isSome
            || req.any fun t => decide (ScopeTypeForValueType t = c)) := by
  intro req
  induction req with
  | nil => intro st c; simp
  | cons t ts ih =>
    intro st c
    rw [List.foldl_cons, ih, List.any_cons]
    by_cases hc : c = ScopeTypeForValueType t
    · subst hc
      rw [scopeStep_self]
      simp
    · rw [scopeStep_ne form st t c hc]
      have hd : decide (ScopeTypeForValueType t = c) = false := by
        simp
        exact fun he => hc he.symm
      rw [hd]
      simp [Bool.or_assoc]

/-- Reading a category-invariant state off along a key list yields
exactly the occupied keys. -/
theorem filterMap_state_types (st : ScopeType → Option Scope) (hty : TyInv st) :
    ∀ l : List ScopeType,
      (List.filterMap st l).map Scope.type = l.filter fun c => (st c).isSome := by
  intro l
  induction l with
  | nil => rfl
  | cons a l ih =>
    cases ha : st a with
    | none => simp [List.filterMap_cons, List.filter_cons, ha, ih]
    | some s => simp [List.filterMap_cons, List.filter_cons, ha, ih, hty a s ha]

/-- The loop body never removes documents. -/
theorem stepDocs_mono (form : Form) (docs : List Value) (t ft : ValueType) :
    ∀ d ∈ docs, d ∈ stepDocs form docs t ft := by
  intro d hd
  unfold stepDocs
  split
  · exact hd
  · split
    · exact hd
    · exact List.mem_append_left _ hd

/-- The loop body preserves pairwise-distinct document categories. -/
theorem stepDocs_nodup (form : Form) (docs : List Value) (t ft : ValueType)
    (hv : (form.values t).type = t)
    (h : (docs.map Value.type).Nodup) :
    ((stepDocs form docs t ft).map Value.type).Nodup := by
  unfold stepDocs
  split
  · exact h
  · rename_i hany
    split
    · exact h
    · rw [List.map_append]
      have hnot : t ∉ docs.map Value.type := by
        intro hmem
        obtain ⟨d, hd, hdt⟩ := List.mem_map.mp hmem
        exact hany (List.any_eq_true.mpr ⟨d, hd, by simp [hdt]⟩)
      simp [List.nodup_append, h, hv, hnot]

/-- Every document after the loop body was already there, or is the
resolved value of a non-primary request entry just appended. -/
theorem stepDocs_sub (form : Form) (docs : List Value) (t ft : ValueType) :
    ∀ d ∈ stepDocs form docs t ft, d ∈ docs ∨ (d = form.values t ∧ t ≠ ft) := by
  intro d hd
  unfold stepDocs at hd
  split at hd
  · exact Or.inl hd
  · split at hd
    · exact Or.inl hd
    · rename_i hne
      rcases List.mem_append.mp hd with h | h
      · exact Or.inl h
      · exact Or.inr ⟨List.mem_singleton.mp h, hne⟩

/-- After processing a non-primary entry, a document of its category is
present (whether it was a duplicate or was just appended). -/
theorem stepDocs_mem_self (form : Form) (docs : List Value) (t ft : ValueType)
    (hv : (form.values t).type = t) (hne : t ≠ ft) :
    ∃ d ∈ stepDocs form docs t ft, d.type = t := by
  unfold stepDocs
  by_cases hany : (docs.any fun d => decide (d.type = t)) = true
  · rw [if_pos hany]
    obtain ⟨d, hd, hdt⟩ := List.any_eq_true.mp hany
    exact ⟨d, hd, of_decide_eq_true hdt⟩
  · rw [if_neg hany, if_neg hne]
    exact ⟨form.values t,
      List.mem_append_right _ (List.mem_singleton_self _), hv⟩

/-- The base scope's documents already satisfy the document
invariant. -/
theorem baseScope_docs (form : Form) (st : ScopeType → Option Scope)
    (t : ValueType) (hinv : DocInv form st) :
    ((baseScope form st t).documents.map Value.type).Nodup ∧
    ∀ d ∈ (baseScope form st t).documents, d = form.values d.type ∧
      ScopeTypeForValueType d.type = ScopeTypeForValueType t ∧
      d.type ≠ FieldsTypeForScopeType (ScopeTypeForValueType t) := by
  unfold baseScope
  cases hst : st (ScopeTypeForValueType t) with
  | none =>
    refine ⟨List.nodup_nil, ?_⟩
    intro d hd
    exact absurd hd (List.not_mem_nil d)
  | some s => exact hinv _ s hst

/-- The builder step preserves the document invariant. -/
theorem docInv_step (form : Form) (st : ScopeType → Option Scope)
    (t : ValueType) (hv : ∀ u, (form.values u).type = u)
    (hinv : DocInv form st) : DocInv form (scopeStep form st t) := by
  intro c s h
  by_cases hc : c = ScopeTypeForValueType t
  · subst hc
    rw [scopeStep_self] at h
    cases h
    obtain ⟨hnd, hprov⟩ := baseScope_docs form st t hinv
    refine ⟨stepDocs_nodup form _ t _ (hv t) hnd, ?_⟩
    intro d hd
    rcases stepDocs_sub form _ t _ d hd with hmem | ⟨heq, hne⟩
    · exact hprov d hmem
    · subst heq
      refine ⟨by rw [hv t], by rw [hv t], ?_⟩
      rw [hv t]
      exact hne
  · rw [scopeStep_ne form st t c hc] at h
    exact hinv c s h

/-- The empty state satisfies the document invariant. -/
theorem docInv_empty (form : Form) : DocInv form emptyScopesState := by
  intro c s h
  cases h

/-- The whole fold preserves the document invariant. -/
theorem docInv_foldl (form : Form) (hv : ∀ u, (form.values u).type = u) :
    ∀ (req : List ValueType) (st : ScopeType → Option Scope), DocInv form st →
      DocInv form (req.foldl (scopeStep form) st) := by
  intro req
  induction req with
  | nil => intro st h; exact h
  | cons t ts ih =>
    intro st h
    rw [List.foldl_cons]
    exact ih _ (docInv_step form st t hv h)

/-- Every scope category is listed in the fixed output order. -/
theorem mem_scopeOrder (c : ScopeType) : c ∈ scopeOrder := by
  cases c <;> simp [scopeOrder]

/-- An occupied slot stays occupied through the fold, and its documents
only grow. -/
theorem foldl_mono (form : Form) :
    ∀ (req : List ValueType) (st : ScopeType → Option Scope) (c : ScopeType)
      (s : Scope), st c = some s →
      ∃ s2, (req.foldl (scopeStep form) st) c = some s2 ∧
        ∀ d ∈ s.documents, d ∈ s2.documents := by
  intro req
  induction req with
  | nil => intro st c s h; exact ⟨s, h, fun d hd => hd⟩
  | cons u us ih =>
    intro st c s h
    rw [List.foldl_cons]
    by_cases hc : c = ScopeTypeForValueType u
    · subst hc
      obtain ⟨s2, hs2, hmono⟩ :=
        ih (scopeStep form st u) _ (stepScope form st u) (scopeStep_self form st u)
      refine ⟨s2, hs2, fun d hd => hmono d ?_⟩
      show d ∈ stepDocs form (baseScope form st u).documents u
        (FieldsTypeForScopeType (ScopeTypeForValueType u))
      have hbase : baseScope form st u = s := by
        unfold baseScope
        rw [h]
      rw [hbase]
      exact stepDocs_mono form s.documents u _ d hd
    · exact ih (scopeStep form st u) c s
        (by rw [scopeStep_ne form st u c hc]; exact h)

/-- In a list whose element categories are pairwise distinct, filtering
for the category of a member yields exactly that member. -/
theorem filter_type_singleton :
    ∀ (l : List Value) (t : ValueType) (v : Value),
      (l.map Value.type).Nodup → v ∈ l → v.type = t →
      (∀ d ∈ l, d.type = t → d = v) →
      l.filter (fun x => decide (x.type = t)) = [v] := by
  intro l
  induction l with
  | nil =>
    intro t v _ hv
    cases hv
  | cons x xs ih =>
    intro t v hnd hv hvt hall
    rw [List.filter_cons]
    by_cases hx : x.type = t
    · have hxv : x = v := hall x (List.mem_cons_self x xs) hx
      rw [if_pos (by simp [hx])]
      have hnil : xs.filter (fun x => decide (x.type = t)) = [] := by
        rw [List.filter_eq_nil_iff]
        intro d hd
        simp only [decide_eq_true_eq]
        intro hdt
        have hmem : x.type ∈ xs.map Value.type := by
          rw [hx, ← hdt]
          exact List.mem_map_of_mem _ hd
        rw [List.map_cons] at hnd
        exact (List.nodup_cons.mp hnd).1 hmem
      rw [hxv, hnil]
    · rw [if_neg (by simp [hx])]
      rw [List.map_cons] at hnd
      apply ih t v (List.nodup_cons.mp hnd).2 ?_ hvt
        (fun d hd hdt => hall d (List.mem_cons_of_mem _ hd) hdt)
      rcases List.mem_cons.mp hv with hveq | hvmem
      · exact absurd (hveq ▸ hvt) hx
      · exact hvmem

/-- Claim C2: a request repeating a non-primary document category yields
a scope, at that category's scope type, whose documents hold exactly one
entry of that category — the resolver's value for it, kept from the
first occurrence. -/
theorem duplicate_request_single_document (form : Form) (t : ValueType)
    (hv : ∀ u, (form.values u).type = u)
    (hnp : t ≠ FieldsTypeForScopeType (ScopeTypeForValueType t))
    (hdup : 2 ≤ form.request.countP fun u => decide (u = t)) :
    ∃ scope, scope ∈ ComputeScopes form ∧
      scope.type = ScopeTypeForValueType t ∧
      scope.documents.filter (fun d => decide (d.type = t))
        = [form.values t] := by
  have hmem : t ∈ form.request := by
    have hpos : 0 < form.request.countP fun u => decide (u = t) := by omega
    obtain ⟨u, hu, hut⟩ := List.countP_pos_iff.mp hpos
    rwa [of_decide_eq_true hut] at hu
  obtain ⟨l1, l2, hsplit⟩ := List.append_of_mem hmem
  have hstep : (scopeStep form (l1.foldl (scopeStep form) emptyScopesState) t)
      (ScopeTypeForValueType t)
      = some (stepScope form (l1.foldl (scopeStep form) emptyScopesState) t) :=
    scopeStep_self form _ t
  obtain ⟨d0, hd0, hd0t⟩ := stepDocs_mem_self form
    (baseScope form (l1.foldl (scopeStep form) emptyScopesState) t).documents t
    (FieldsTypeForScopeType (ScopeTypeForValueType t)) (hv t) hnp
  obtain ⟨s2, hs2, hmono⟩ := foldl_mono form l2 _ _ _ hstep
  have hfin : (form.request.foldl (scopeStep form) emptyScopesState)
      (ScopeTypeForValueType t) = some s2 := by
    rw [hsplit, List.foldl_append, List.foldl_cons]
    exact hs2
  have hd0fin : d0 ∈ s2.documents := hmono d0 hd0
  have hty := tyInv_foldl form form.request emptyScopesState tyInv_empty _ s2 hfin
  obtain ⟨hnd, hprov⟩ := docInv_foldl form hv form.request emptyScopesState
    (docInv_empty form) _ s2 hfin
  have hd0v : d0 = form.values t := by
    have hx := (hprov d0 hd0fin).1
    rw [hd0t] at hx
    exact hx
  refine ⟨s2, ?_, hty, ?_⟩
  · exact List.mem_filterMap.mpr ⟨ScopeTypeForValueType t, mem_scopeOrder _, hfin⟩
  · apply filter_type_singleton s2.documents t (form.values t) hnd
    · rw [← hd0v]
      exact hd0fin
    · exact hv t
    · intro d hd hdt
      have hx := (hprov d hd).1
      rw [hdt] at hx
      exact hx

/-- The concrete resolver assigns each category a value of that
category. -/
theorem resolverW_type : ∀ u, (resolverW u).type = u := by
  intro u
  cases u <;> rfl

/-- Claim C2 witness: the request `[PersonalDetails, Passport,
Passport]` yields a scope with exactly one Passport document. -/
theorem duplicate_request_single_document_witness :
    ∃ scope, scope ∈ ComputeScopes formC2 ∧
      scope.type = ScopeTypeForValueType ValueType.Passport ∧
      scope.documents.filter (fun d => decide (d.type = ValueType.Passport))
        = [formC2.values ValueType.Passport] :=
  duplicate_request_single_document formC2 ValueType.Passport resolverW_type
    (by decide) (by decide)

/-- Evaluation of the row presenter on an Identity scope holding a
single document. -/
theorem scopeRow_eval_identity_single (env : Env) (scope : Scope) (doc : Value)
    (htype : scope.type = ScopeType.Identity) (hdocs : scope.documents = [doc]) :
    ComputeScopeRow env scope =
      match identityDocKeys doc.type with
      | some (tk, sk) =>
        (ComputeScopeRowReadyString env scope).map fun r =>
          ScopeRow.mk (env.lang tk) (env.lang sk) r
      | none => none := by
  obtain ⟨ty, pv, docs, sr⟩ := scope
  cases htype
  cases hdocs
  rfl

/-- On an Identity/Address scope with at most one document the summary
formatter cannot reach a fatal path: it always returns some string. -/
theorem ready_isSome_single (env : Env) (scope : Scope)
    (htype : scope.type = ScopeType.Identity ∨ scope.type = ScopeType.Address)
    (hlen : ¬ 1 < scope.documents.length) :
    ∃ r, ComputeScopeRowReadyString env scope = some r := by
  rw [ready_eval_document env scope htype]
  have hlp : ∃ l, docLabelPart env scope = some l := by
    cases hrd : representativeDocument scope.documents with
    | none => exact ⟨[], by simp [docLabelPart, hrd]⟩
    | some d0 => exact ⟨[], by simp [docLabelPart, hrd, hlen]⟩
  obtain ⟨l, hl⟩ := hlp
  simp only [hl]
  by_cases hb : scanSelfieBlock scope
  · rw [if_pos hb]
    exact ⟨"", rfl⟩
  · rw [if_neg hb]
    cases hw : walkRows scope.fields.fields (representativeDocument scope.documents)
        (env.getDocumentScheme scope.type).rows with
    | none => exact ⟨"", rfl⟩
    | some strs => exact ⟨joinList ", " (l ++ strs), rfl⟩

/-- Claim C9: an Identity scope from the builder with exactly one
document has a Passport / IdentityCard / DriverLicense document, and the
row presenter returns that category's specific title/subtitle pair with
the formatter's summary — the contract-violation branch is
unreachable. -/
theorem identity_single_document_row (env : Env) (form : Form) (scope : Scope)
    (doc : Value)
    (hv : ∀ u, (form.values u).type = u)
    (hmem : scope ∈ ComputeScopes form)
    (htype : scope.type = ScopeType.Identity)
    (hdocs : scope.documents = [doc]) :
    (doc.type = ValueType.Passport ∨ doc.type = ValueType.IdentityCard ∨
      doc.type = ValueType.DriverLicense) ∧
    ∃ tk sk r, identityDocKeys doc.type = some (tk, sk) ∧
      ComputeScopeRowReadyString env scope = some r ∧
      ComputeScopeRow env scope
        = some (ScopeRow.mk (env.lang tk) (env.lang sk) r) := by
  obtain ⟨c, hc, hst⟩ := List.mem_filterMap.mp hmem
  have hcid : c = ScopeType.Identity := by
    rw [← htype]
    exact (tyInv_foldl form form.request emptyScopesState tyInv_empty c scope hst).symm
  subst hcid
  have hdmem : doc ∈ scope.documents := by
    rw [hdocs]
    exact List.mem_cons_self doc []
  obtain ⟨hnd, hprov⟩ := docInv_foldl form hv form.request emptyScopesState
    (docInv_empty form) ScopeType.Identity scope hst
  obtain ⟨hdres, hdmap, hdnf⟩ := hprov doc hdmem
  have h3 : doc.type = ValueType.Passport ∨ doc.type = ValueType.IdentityCard ∨
      doc.type = ValueType.DriverLicense := by
    cases hdt : doc.type <;> rw [hdt] at hdmap hdnf <;>
      first
        | exact Or.inl rfl
        | exact Or.inr (Or.inl rfl)
        | exact Or.inr (Or.inr rfl)
        | exact absurd rfl hdnf
        | exact absurd hdmap (by decide)
  have hlen : ¬ 1 < scope.documents.length := by
    rw [hdocs]
    simp
  obtain ⟨r, hr⟩ := ready_isSome_single env scope (Or.inl htype) hlen
  refine ⟨h3, ?_⟩
  rw [scopeRow_eval_identity_single env scope doc htype hdocs]
  rcases h3 with h | h | h <;> rw [h] <;>
    exact ⟨_, _, r, rfl, hr, by rw [hr]; exact rfl⟩

/-- Claim C9 witness: on the builder's Identity scope from
`[PersonalDetails, Passport]` the presenter returns the Passport
pair. -/
theorem identity_single_document_row_witness :
    (passportValue.type = ValueType.Passport ∨
      passportValue.type = ValueType.IdentityCard ∨
      passportValue.type = ValueType.DriverLicense) ∧
    ∃ tk sk r, identityDocKeys passportValue.type = some (tk, sk) ∧
      ComputeScopeRowReadyString envPlain scopeC9 = some r ∧
      ComputeScopeRow envPlain scopeC9
        = some (ScopeRow.mk (envPlain.lang tk) (envPlain.lang sk) r) :=
  identity_single_document_row envPlain formC9 scopeC9 passportValue
    resolverW_type (by decide) rfl rfl

/-- Claim C3: the builder's output is ordered Identity, Address, Phone,
Email, restricted to the scope categories some request entry maps to —
whatever the request order. -/
theorem scopes_ordered_by_category (form : Form) :
    (ComputeScopes form).map Scope.type
      = scopeOrder.filter fun c =>
          form.request.any fun t => decide (ScopeTypeForValueType t = c) := by
  unfold ComputeScopes
  rw [filterMap_state_types _ (tyInv_foldl form form.request emptyScopesState tyInv_empty)]
  apply List.filter_congr
  intro c _
  rw [foldl_isSome]
  simp [emptyScopesState]

end Passport
